import Mathlib

/-!
Shallow embedding of libcintelhex (an Intel HEX decoder) in Lean 4.

The repository ships only the public header `src/include/cintelhex.h`;
the C implementation files behind the declared functions are not under
`src/`.  The header fixes the error codes, the record/record-set data
model and the contracts in its doc comments; the behaviour of each
declared function is modelled from the specification (spec.md), as
noted on each definition.

Bytes, addresses and sums are modelled as `Nat` with explicit `% 256`
where eight-bit overflow matters.  Text is modelled as a list of ASCII
byte values (`List Nat`), matching the C code's use of `uint8_t*` for
input.
-/

deriving instance DecidableEq for Except

namespace Ihex

/-- Error kinds, mirroring the `IHEX_ERR_*` constants of
`src/include/cintelhex.h` lines 11-19. -/
inductive IhexErr where
  | incorrectChecksum
  | noEof
  | parseError
  | wrongRecordLength
  | noInput
  | unknownRecordType
  | prematureEof
  | addressOutOfRange
  | mmapFailed
  deriving DecidableEq, Repr

/-- Numeric error codes as given by the `IHEX_ERR_*` defines in the header. -/
def errCode : IhexErr → Nat
  | .incorrectChecksum => 0x01
  | .noEof             => 0x02
  | .parseError        => 0x03
  | .wrongRecordLength => 0x04
  | .noInput           => 0x05
  | .unknownRecordType => 0x06
  | .prematureEof      => 0x07
  | .addressOutOfRange => 0x08
  | .mmapFailed        => 0x09

/-- Record types, mirroring `ihex_rtype_t` in the header
(`IHEX_DATA = 0x00` .. `IHEX_SLA = 0x05`). -/
inductive Rtype where
  | data
  | eof
  | esa
  | ssa
  | ela
  | sla
  deriving DecidableEq, Repr

/-- The numeric type code of a record type, as fixed by `ihex_rtype_t`. -/
def Rtype.code : Rtype → Nat
  | .data => 0x00
  | .eof  => 0x01
  | .esa  => 0x02
  | .ssa  => 0x03
  | .ela  => 0x04
  | .sla  => 0x05

/-- The record type for a numeric type code; codes outside `0x00`-`0x05`
are unknown (`none`). -/
def rtypeOfCode : Nat → Option Rtype
  | 0x00 => some .data
  | 0x01 => some .eof
  | 0x02 => some .esa
  | 0x03 => some .ssa
  | 0x04 => some .ela
  | 0x05 => some .sla
  | _    => none

/-- A single Intel HEX record, mirroring `ihex_record_t` in the header:
length, type, 16-bit base address, data bytes and checksum byte. -/
structure IhexRecord where
  ihr_length   : Nat
  ihr_type     : Rtype
  ihr_address  : Nat
  ihr_data     : List Nat
  ihr_checksum : Nat
  deriving DecidableEq, Repr

/-- A record set is the ordered list of its records (`ihex_recordset_t`
stores the same list together with its length `ihrs_count`). -/
abbrev IhexRecordset := List IhexRecord

/-- The sum of all bytes of a record: length byte, the two address
bytes, type code, the data bytes, and the checksum byte (doc comment of
`ihex_check_record`, header lines 106-113). -/
def recordSum (r : IhexRecord) : Nat :=
  r.ihr_length + r.ihr_address / 256 + r.ihr_address % 256 +
    r.ihr_type.code + r.ihr_data.sum + r.ihr_checksum

/-- Modelled from the spec: the C body of `ihex_check_record` is not under
src/ (only its declaration and doc comment, header lines 106-113, which
state the contract: including the checksum, the low byte of the sum of
all record bytes must be 0; return 0 if the record is correct,
otherwise 1). -/
def ihex_check_record (r : IhexRecord) : Nat :=
  if recordSum r % 256 = 0 then 0 else 1

/-- Modelled from the spec: value of one ASCII hex digit (`0-9A-Fa-f`,
spec §4.1); any other byte is invalid (`none`).  Byte values are ASCII:
48-57 are the digits, 65-70 are `A`-`F`, 97-102 are `a`-`f`. -/
def hexDigit (b : Nat) : Option Nat :=
  if 48 ≤ b ∧ b ≤ 57 then some (b - 48)
  else if 65 ≤ b ∧ b ≤ 70 then some (b - 65 + 10)
  else if 97 ≤ b ∧ b ≤ 102 then some (b - 97 + 10)
  else none

/-- Modelled from the spec: the C body of `ihex_fromhex8` (`decode_u8`,
spec §4.1) is not under src/; it combines the nibble values of two ASCII
hex characters as `high * 16 + low` and fails with `ParseError` if
either character is not a hex digit. -/
def ihex_fromhex8 (hi lo : Nat) : Except IhexErr Nat :=
  match hexDigit hi, hexDigit lo with
  | some h, some l => .ok (h * 16 + l)
  | _, _ => .error .parseError

/-- Modelled from the spec: the C body of `ihex_fromhex16` (`decode_u16`,
spec §4.1) is not under src/; it composes two `decode_u8` calls in
big-endian order. -/
def ihex_fromhex16 (a b c d : Nat) : Except IhexErr Nat :=
  match ihex_fromhex8 a b with
  | .error e => .error e
  | .ok hi =>
    match ihex_fromhex8 c d with
    | .error e => .error e
    | .ok lo => .ok (hi * 256 + lo)

/-- Modelled from the spec: decoding of `n` consecutive hex byte pairs by
the line parser (spec §4.2).  Returns the decoded bytes and the
remaining input; running out of input is a record-length failure. -/
def decodePairs : Nat → List Nat → Except IhexErr (List Nat × List Nat)
  | 0, bs => .ok ([], bs)
  | n + 1, hi :: lo :: bs =>
    match ihex_fromhex8 hi lo with
    | .error e => .error e
    | .ok b =>
      match decodePairs n bs with
      | .error e => .error e
      | .ok (ds, rest) => .ok (b :: ds, rest)
  | _ + 1, _ => .error .wrongRecordLength

/-- Modelled from the spec: the line parser (spec §4.2); the C
implementation behind `ihex_rs_from_string` is not under src/.  A line
must start with `:` (ASCII 58); then the length byte, the 16-bit
address, the type byte, `length` data bytes and the checksum byte are
decoded.  Unknown type codes are rejected with `UnknownRecordType`, a
line shorter than header + data + checksum with `WrongRecordLength`, a
checksum mismatch with `IncorrectChecksum`, and malformed hex digits
(or a missing `:`) with `ParseError`.  Trailing characters after the
checksum (CR/LF) are ignored. -/
def parseRecordLine (line : List Nat) : Except IhexErr IhexRecord :=
  match line with
  | 58 :: l1 :: l2 :: a1 :: a2 :: a3 :: a4 :: t1 :: t2 :: rest =>
    match ihex_fromhex8 l1 l2 with
    | .error e => .error e
    | .ok len =>
      match ihex_fromhex16 a1 a2 a3 a4 with
      | .error e => .error e
      | .ok addr =>
        match ihex_fromhex8 t1 t2 with
        | .error e => .error e
        | .ok tcode =>
          match rtypeOfCode tcode with
          | none => .error .unknownRecordType
          | some ty =>
            if rest.length < 2 * len + 2 then .error .wrongRecordLength
            else
              match decodePairs len rest with
              | .error e => .error e
              | .ok (ds, rest2) =>
                match rest2 with
                | c1 :: c2 :: _ =>
                  match ihex_fromhex8 c1 c2 with
                  | .error e => .error e
                  | .ok ck =>
                    if ihex_check_record ⟨len, ty, addr, ds, ck⟩ = 0 then
                      .ok ⟨len, ty, addr, ds, ck⟩
                    else .error .incorrectChecksum
                | _ => .error .wrongRecordLength
  | _ => .error .parseError

/-- A line is blank when it holds only whitespace bytes: space (32),
horizontal tab (9) or carriage return (13).  (Spec §4.3 skips blank
lines; §6: trailing whitespace ignored, lines end in CR/LF or LF.) -/
def isBlank (l : List Nat) : Bool :=
  l.all fun b => b = 32 ∨ b = 9 ∨ b = 13

/-- Split an input byte sequence into lines at each line feed (ASCII 10). -/
def splitLines : List Nat → List (List Nat)
  | [] => [[]]
  | 10 :: bs => [] :: splitLines bs
  | b :: bs =>
    match splitLines bs with
    | [] => [[b]]
    | l :: ls => (b :: l) :: ls

/-- Modelled from the spec: the recordset assembler loop (spec §4.3); the
C implementation behind `ihex_rs_from_string` is not under src/.  Lines
are parsed in order, blank lines skipped, one record appended per
non-blank line; the walk stops successfully as soon as an
`EndOfFile`-typed record is parsed (later lines are ignored); if input
runs out without an EOF record the result is `NoEof`; any line-parser
failure propagates unchanged. -/
def assembleRecords : List (List Nat) → Except IhexErr IhexRecordset
  | [] => .error .noEof
  | line :: rest =>
    if isBlank line then assembleRecords rest
    else
      match parseRecordLine line with
      | .error e => .error e
      | .ok r =>
        if r.ihr_type = .eof then .ok [r]
        else
          match assembleRecords rest with
          | .error e => .error e
          | .ok rs => .ok (r :: rs)

/-- Modelled from the spec: the C body of `ihex_rs_from_string` (header
lines 83-90) is not under src/.  The input is split into lines; input
with zero non-blank lines is rejected with `NoInput` (spec §4.3);
otherwise the assembler loop runs. -/
def ihex_rs_from_string (s : List Nat) : Except IhexErr IhexRecordset :=
  if (splitLines s).all isBlank then .error .noInput
  else assembleRecords (splitLines s)

/-- ASCII byte values of a string, for concrete test inputs. -/
def strBytes (s : String) : List Nat :=
  s.toList.map fun c => c.toNat

/-- Modelled from the spec: the C body of `ihex_rs_get_size` (header
lines 92-99) is not under src/.  Per spec §4.6 it sums `length` over the
records of type `Data` only; other record types contribute 0, and
addresses are never consulted. -/
def ihex_rs_get_size : IhexRecordset → Nat
  | [] => 0
  | r :: rs =>
    (if r.ihr_type = .data then r.ihr_length else 0) + ihex_rs_get_size rs

/-- Byte order for `ihex_mem_copy`, mirroring `ihex_byteorder_t` in the
header. -/
inductive ByteOrder where
  | big
  | little
  deriving DecidableEq, Repr

/-- Modelled from the spec: the 16-bit payload of an extended-address
record, read big-endian from its first two data bytes (spec §4.1/§4.4
`payload_u16`). -/
def payload_u16 (r : IhexRecord) : Nat :=
  r.ihr_data.getD 0 0 * 256 + r.ihr_data.getD 1 0

/-- Consecutive groups of `w` list elements, in order; the last group may
be shorter.  Used to model word-width grouping in `ihex_mem_copy`. -/
def chunks (w : Nat) : List Nat → List (List Nat)
  | [] => []
  | a :: l => (a :: l.take (w - 1)) :: chunks w (l.drop (w - 1))
  termination_by l => l.length
  decreasing_by simp [List.length_drop]; omega

/-- Modelled from the spec: byte reordering of a data record's payload by
`ihex_mem_copy` (spec §4.4).  When the word width is greater than 1 and
the byte order is little-endian, each group of `w` payload bytes is
reversed; big-endian data (or width 1) is kept in stream order. -/
def reorder (w : Nat) (o : ByteOrder) (ds : List Nat) : List Nat :=
  if w ≤ 1 then ds
  else
    match o with
    | .big => ds
    | .little => ((chunks w ds).map List.reverse).flatten

/-- Overwrite `buf` at offset `off` with the bytes `ds`, leaving the rest
of the buffer unchanged (the `memcpy` into the destination performed by
`ihex_mem_copy` for a data record). -/
def writeAt (buf : List Nat) (off : Nat) (ds : List Nat) : List Nat :=
  buf.take off ++ ds ++ buf.drop (off + ds.length)

/-- Modelled from the spec: the record walk of `ihex_mem_copy` (spec
§4.4); the C body behind header lines 115-125 is not under src/.  The
walk carries the most recently set extended base address (`base`, 0
initially) and the destination buffer.  An ESA record sets the base to
`payload_u16 << 4`, an ELA record to `payload_u16 << 16`; neither writes
data.  SSA/SLA records are skipped.  A data record is written at
absolute offset `address + base` after reordering, unless
`offset + length` exceeds the destination size, in which case the walk
aborts with `AddressOutOfRange`, keeping the bytes already written.  An
EOF record ends the walk successfully. -/
def ihex_mem_copy_aux (w : Nat) (o : ByteOrder) :
    IhexRecordset → Nat → List Nat → Option IhexErr × List Nat
  | [], _, buf => (none, buf)
  | r :: rest, base, buf =>
    match r.ihr_type with
    | .eof => (none, buf)
    | .esa => ihex_mem_copy_aux w o rest (payload_u16 r <<< 4) buf
    | .ela => ihex_mem_copy_aux w o rest (payload_u16 r <<< 16) buf
    | .ssa => ihex_mem_copy_aux w o rest base buf
    | .sla => ihex_mem_copy_aux w o rest base buf
    | .data =>
      if r.ihr_address + base + r.ihr_length > buf.length then
        (some .addressOutOfRange, buf)
      else
        ihex_mem_copy_aux w o rest base
          (writeAt buf (r.ihr_address + base) (reorder w o r.ihr_data))

/-- Modelled from the spec: `ihex_mem_copy` (header lines 115-125); the
destination buffer contents stand for the target area, whose size is the
buffer's length.  Returns the error (if any) together with the final
buffer contents. -/
def ihex_mem_copy (rs : IhexRecordset) (buf : List Nat) (w : Nat)
    (o : ByteOrder) : Option IhexErr × List Nat :=
  ihex_mem_copy_aux w o rs 0 buf

/-- The absolute offset/length span of every data record the
`ihex_mem_copy` walk reaches (records after the first EOF record are
never reached), together with the base active at that record. -/
def dataSpans : IhexRecordset → Nat → List (Nat × Nat)
  | [], _ => []
  | r :: rest, base =>
    match r.ihr_type with
    | .eof => []
    | .esa => dataSpans rest (payload_u16 r <<< 4)
    | .ela => dataSpans rest (payload_u16 r <<< 16)
    | .ssa => dataSpans rest base
    | .sla => dataSpans rest base
    | .data => (r.ihr_address + base, r.ihr_length) :: dataSpans rest base

/-- The process-wide error state of the library: `ihex_last_errno` and
`ihex_last_error` (header lines 62-70), modelled as an explicit state
value threaded through the fallible entry points. -/
structure IhexWorld where
  ihex_last_errno : Nat
  ihex_last_error : Option String
  deriving DecidableEq, Repr

/-- The initial process state: no error has occurred, `ihex_last_errno`
is 0 and `ihex_last_error` is NULL (header lines 64-66). -/
def initialWorld : IhexWorld :=
  ⟨0, none⟩

/-- Modelled from the spec: a human-readable message for each error kind
(spec §6/§7: the error surface carries a kind and a message). -/
def errMessage : IhexErr → String
  | .incorrectChecksum => "incorrect checksum"
  | .noEof             => "missing EOF record"
  | .parseError        => "parse error"
  | .wrongRecordLength => "wrong record length"
  | .noInput           => "no input"
  | .unknownRecordType => "unknown record type"
  | .prematureEof      => "premature end of input"
  | .addressOutOfRange => "address out of range"
  | .mmapFailed        => "mmap failed"

/-- Modelled from the spec: the stateful shell of `ihex_rs_from_string`
(header lines 83-90); on success the new record set is returned (a
non-NULL pointer), on failure NULL is returned and the process-wide
error slot records the error's code and message. -/
def ihex_rs_from_string_g (s : List Nat) (w : IhexWorld) :
    Option IhexRecordset × IhexWorld :=
  match ihex_rs_from_string s with
  | .ok rs => (some rs, w)
  | .error e => (none, ⟨errCode e, some (errMessage e)⟩)

/-- Modelled from the spec: `ihex_rs_from_file` (header lines 74-81) maps
the file into memory and parses it like `ihex_rs_from_string`; the
excluded I/O layer hands this core the file's contents (spec §1/§6). -/
def ihex_rs_from_file_g (contents : List Nat) (w : IhexWorld) :
    Option IhexRecordset × IhexWorld :=
  ihex_rs_from_string_g contents w

/-- Modelled from the spec: `ihex_errno` (header lines 101-104) returns
the error code of the latest error, or 0 if no error occurred. -/
def ihex_errno (w : IhexWorld) : Nat :=
  w.ihex_last_errno

/-- Modelled from the spec: `ihex_error` (header line 135-136) returns
the latest error message, or NULL (`none`) if no error occurred. -/
def ihex_error (w : IhexWorld) : Option String :=
  w.ihex_last_error

/-! ## Helper lemmas -/

theorem check_record_eq_zero_iff (r : IhexRecord) :
    ihex_check_record r = 0 ↔ recordSum r % 256 = 0 := by
  unfold ihex_check_record
  split <;> simp_all

theorem check_record_eq_one_iff (r : IhexRecord) :
    ihex_check_record r = 1 ↔ recordSum r % 256 ≠ 0 := by
  unfold ihex_check_record
  split <;> simp_all

theorem flip_bit_breaks_sum (S c k : Nat) (hc : c < 256) (hk : k < 8)
    (h0 : (S + c) % 256 = 0) : (S + (c ^^^ 2 ^ k)) % 256 ≠ 0 := by
  intro h1
  have h2k : (2 : Nat) ^ k < 256 := by
    calc (2 : Nat) ^ k ≤ 2 ^ 7 := Nat.pow_le_pow_right (by norm_num) (by omega)
    _ < 256 := by norm_num
  have hc' : c ^^^ 2 ^ k < 256 := by
    have h8 : (256 : Nat) = 2 ^ 8 := by norm_num
    rw [h8] at hc h2k ⊢
    exact Nat.xor_lt_two_pow hc h2k
  have heq : c = c ^^^ 2 ^ k := by omega
  have hzero : c ^^^ (c ^^^ 2 ^ k) = 0 := Nat.xor_eq_zero.mpr heq
  rw [← Nat.xor_assoc, Nat.xor_self, Nat.zero_xor] at hzero
  have : (0 : Nat) < 2 ^ k := Nat.pos_pow_of_pos k (by norm_num)
  omega

theorem fromhex8_error_kind {a b : Nat} {e : IhexErr}
    (h : ihex_fromhex8 a b = .error e) : e = .parseError := by
  unfold ihex_fromhex8 at h
  split at h <;> simp_all

theorem fromhex16_error_kind {a b c d : Nat} {e : IhexErr}
    (h : ihex_fromhex16 a b c d = .error e) : e = .parseError := by
  unfold ihex_fromhex16 at h
  split at h
  · rename_i e1 heq
    injection h with h'
    subst h'
    exact fromhex8_error_kind heq
  · split at h
    · rename_i e1 heq
      injection h with h'
      subst h'
      exact fromhex8_error_kind heq
    · exact absurd h (by simp)

theorem decodePairs_error_kind :
    ∀ (n : Nat) (bs : List Nat) (e : IhexErr), decodePairs n bs = .error e →
      e = .parseError ∨ e = .wrongRecordLength := by
  intro n
  induction n with
  | zero => intro bs e h; simp [decodePairs] at h
  | succ n ih =>
    intro bs e h
    match bs with
    | [] =>
      unfold decodePairs at h
      injection h with h'
      subst h'
      exact Or.inr rfl
    | [hi] =>
      unfold decodePairs at h
      injection h with h'
      subst h'
      exact Or.inr rfl
    | hi :: lo :: bs2 =>
      unfold decodePairs at h
      split at h
      · rename_i e1 heq
        injection h with h'
        subst h'
        exact Or.inl (fromhex8_error_kind heq)
      · split at h
        · rename_i e1 heq
          injection h with h'
          subst h'
          exact ih bs2 e1 heq
        · exact absurd h (by simp)

theorem parseRecordLine_error_kind {l : List Nat} {e : IhexErr}
    (h : parseRecordLine l = .error e) :
    e = .parseError ∨ e = .unknownRecordType ∨ e = .wrongRecordLength ∨
      e = .incorrectChecksum := by
  unfold parseRecordLine at h
  split at h
  · split at h
    · rename_i e1 heq
      injection h with h'
      subst h'
      exact Or.inl (fromhex8_error_kind heq)
    · split at h
      · rename_i e1 heq
        injection h with h'
        subst h'
        exact Or.inl (fromhex16_error_kind heq)
      · split at h
        · rename_i e1 heq
          injection h with h'
          subst h'
          exact Or.inl (fromhex8_error_kind heq)
        · split at h
          · injection h with h'
            subst h'
            exact Or.inr (Or.inl rfl)
          · split at h
            · injection h with h'
              subst h'
              exact Or.inr (Or.inr (Or.inl rfl))
            · split at h
              · rename_i e1 heq
                injection h with h'
                subst h'
                rcases decodePairs_error_kind _ _ _ heq with h1 | h1
                · exact Or.inl h1
                · exact Or.inr (Or.inr (Or.inl h1))
              · split at h
                · split at h
                  · rename_i e1 heq
                    injection h with h'
                    subst h'
                    exact Or.inl (fromhex8_error_kind heq)
                  · split at h
                    · exact absurd h (by simp)
                    · injection h with h'
                      subst h'
                      exact Or.inr (Or.inr (Or.inr rfl))
                · injection h with h'
                  subst h'
                  exact Or.inr (Or.inr (Or.inl rfl))
  · injection h with h'
    subst h'
    exact Or.inl rfl

theorem assemble_append_ok :
    ∀ (ls ls2 : List (List Nat)) (recs : IhexRecordset),
      assembleRecords ls = .ok recs → assembleRecords (ls ++ ls2) = .ok recs := by
  intro ls ls2
  induction ls with
  | nil => intro recs h; simp [assembleRecords] at h
  | cons l rest ih =>
    intro recs h
    rw [List.cons_append]
    unfold assembleRecords at h ⊢
    by_cases hb : isBlank l
    · rw [if_pos hb] at h ⊢
      exact ih recs h
    · rw [if_neg hb] at h ⊢
      cases hp : parseRecordLine l with
      | error e => simp [hp] at h
      | ok r =>
        simp only [hp] at h ⊢
        by_cases he : r.ihr_type = Rtype.eof
        · rw [if_pos he] at h ⊢
          exact h
        · rw [if_neg he] at h ⊢
          cases ha : assembleRecords rest with
          | error e => simp [ha] at h
          | ok rs =>
            simp only [ha] at h
            simp only [ih rs ha]
            exact h

theorem assemble_ne_noInput : ∀ ls, assembleRecords ls ≠ .error .noInput := by
  intro ls
  induction ls with
  | nil => decide
  | cons l rest ih =>
    intro h
    unfold assembleRecords at h
    by_cases hb : isBlank l
    · rw [if_pos hb] at h
      exact ih h
    · rw [if_neg hb] at h
      cases hp : parseRecordLine l with
      | error e =>
        simp only [hp] at h
        injection h with h'
        subst h'
        rcases parseRecordLine_error_kind hp with k | k | k | k <;> cases k
      | ok r =>
        simp only [hp] at h
        by_cases he : r.ihr_type = Rtype.eof
        · rw [if_pos he] at h
          exact absurd h (by simp)
        · rw [if_neg he] at h
          cases ha : assembleRecords rest with
          | error e =>
            simp only [ha] at h
            injection h with h'
            subst h'
            exact ih ha
          | ok rs =>
            simp only [ha] at h
            exact absurd h (by simp)

theorem assemble_no_eof :
    ∀ ls, (∀ l ∈ ls, isBlank l = false →
      ∃ r, parseRecordLine l = .ok r ∧ r.ihr_type ≠ Rtype.eof) →
      assembleRecords ls = .error .noEof := by
  intro ls
  induction ls with
  | nil => intro _; rfl
  | cons l rest ih =>
    intro hall
    unfold assembleRecords
    by_cases hb : isBlank l
    · rw [if_pos hb]
      exact ih fun x hx => hall x (List.mem_cons_of_mem _ hx)
    · rw [if_neg hb]
      obtain ⟨r, hp, he⟩ := hall l (List.mem_cons_self _ _) (by simpa using hb)
      simp only [hp, if_neg he, ih fun x hx => hall x (List.mem_cons_of_mem _ hx)]

theorem assemble_ok_shape :
    ∀ (ls : List (List Nat)) (recs : IhexRecordset),
      assembleRecords ls = .ok recs →
      recs ≠ [] ∧ (∀ r ∈ recs.dropLast, r.ihr_type ≠ Rtype.eof) ∧
        ∃ r, recs.getLast? = some r ∧ r.ihr_type = Rtype.eof := by
  intro ls
  induction ls with
  | nil => intro recs h; simp [assembleRecords] at h
  | cons l rest ih =>
    intro recs h
    unfold assembleRecords at h
    by_cases hb : isBlank l
    · rw [if_pos hb] at h
      exact ih recs h
    · rw [if_neg hb] at h
      cases hp : parseRecordLine l with
      | error e => simp [hp] at h
      | ok r =>
        simp only [hp] at h
        by_cases he : r.ihr_type = Rtype.eof
        · rw [if_pos he] at h
          injection h with h'
          subst h'
          exact ⟨by simp, by simp, r, by simp, he⟩
        · rw [if_neg he] at h
          cases ha : assembleRecords rest with
          | error e => simp [ha] at h
          | ok rs =>
            simp only [ha] at h
            injection h with h'
            subst h'
            obtain ⟨hne, hmid, rl, hlast, hleof⟩ := ih rs ha
            cases rs with
            | nil => exact absurd rfl hne
            | cons y ys =>
              refine ⟨by simp, ?_, rl, ?_, hleof⟩
              · intro x hx
                rw [List.dropLast_cons₂] at hx
                rcases List.mem_cons.mp hx with hx' | hx'
                · rw [hx']; exact he
                · exact hmid x hx'
              · simpa using hlast

theorem chunks_flatten (w : Nat) : ∀ ds : List Nat, (chunks w ds).flatten = ds
  | [] => by rw [chunks]; rfl
  | a :: l => by
    rw [chunks, List.flatten_cons, chunks_flatten w (l.drop (w - 1)),
      List.cons_append, List.take_append_drop]
  termination_by ds => ds.length
  decreasing_by simp [List.length_drop]; omega

theorem chunks_length_le (w : Nat) (hw : 1 ≤ w) :
    ∀ ds : List Nat, ∀ c ∈ chunks w ds, c.length ≤ w
  | [] => by rw [chunks]; intro c hc; cases hc
  | a :: l => by
    intro c hc
    rw [chunks] at hc
    rcases List.mem_cons.mp hc with h | h
    · rw [h]
      simp [List.length_take]
      omega
    · exact chunks_length_le w hw (l.drop (w - 1)) c h
  termination_by ds => ds.length
  decreasing_by simp [List.length_drop]; omega

theorem flatten_map_reverse_length (L : List (List Nat)) :
    ((L.map List.reverse).flatten).length = L.flatten.length := by
  induction L with
  | nil => rfl
  | cons c cs ih => simp [ih]

theorem reorder_length (w : Nat) (o : ByteOrder) (ds : List Nat) :
    (reorder w o ds).length = ds.length := by
  unfold reorder
  split
  · rfl
  · match o with
    | .big => rfl
    | .little => rw [flatten_map_reverse_length, chunks_flatten]

theorem writeAt_length {buf ds : List Nat} {off : Nat}
    (h : off + ds.length ≤ buf.length) :
    (writeAt buf off ds).length = buf.length := by
  simp [writeAt]
  omega

theorem mem_copy_aux_fst (w : Nat) (o : ByteOrder) :
    ∀ (rs : IhexRecordset) (base : Nat) (buf : List Nat),
      (ihex_mem_copy_aux w o rs base buf).1 = none ∨
        (ihex_mem_copy_aux w o rs base buf).1 = some .addressOutOfRange := by
  intro rs
  induction rs with
  | nil => intro base buf; left; rfl
  | cons r rest ih =>
    intro base buf
    obtain ⟨len, ty, addr, ds, ck⟩ := r
    cases ty with
    | eof => left; rfl
    | esa => exact ih _ _
    | ela => exact ih _ _
    | ssa => exact ih _ _
    | sla => exact ih _ _
    | data =>
      simp only [ihex_mem_copy_aux]
      by_cases hov : addr + base + len > buf.length
      · rw [if_pos hov]
        right
        rfl
      · rw [if_neg hov]
        exact ih _ _

theorem mem_copy_aux_error_iff (w : Nat) (o : ByteOrder) :
    ∀ (rs : IhexRecordset) (base : Nat) (buf : List Nat),
      (∀ r ∈ rs, r.ihr_data.length = r.ihr_length) →
      ((ihex_mem_copy_aux w o rs base buf).1 = some .addressOutOfRange ↔
        ∃ s ∈ dataSpans rs base, buf.length < s.1 + s.2) := by
  intro rs
  induction rs with
  | nil =>
    intro base buf _
    simp [ihex_mem_copy_aux, dataSpans]
  | cons r rest ih =>
    intro base buf hlen
    obtain ⟨len, ty, addr, ds, ck⟩ := r
    have hlen_r : ds.length = len := hlen _ (List.mem_cons_self _ _)
    have hlen' : ∀ x ∈ rest, x.ihr_data.length = x.ihr_length :=
      fun x hx => hlen x (List.mem_cons_of_mem _ hx)
    cases ty with
    | eof => simp [ihex_mem_copy_aux, dataSpans]
    | esa =>
      simp only [ihex_mem_copy_aux, dataSpans]
      exact ih _ _ hlen'
    | ela =>
      simp only [ihex_mem_copy_aux, dataSpans]
      exact ih _ _ hlen'
    | ssa =>
      simp only [ihex_mem_copy_aux, dataSpans]
      exact ih _ _ hlen'
    | sla =>
      simp only [ihex_mem_copy_aux, dataSpans]
      exact ih _ _ hlen'
    | data =>
      simp only [ihex_mem_copy_aux, dataSpans]
      by_cases hov : addr + base + len > buf.length
      · rw [if_pos hov]
        constructor
        · intro _
          exact ⟨(addr + base, len), List.mem_cons_self _ _, hov⟩
        · intro _
          rfl
      · rw [if_neg hov]
        have hw : (writeAt buf (addr + base) (reorder w o ds)).length =
            buf.length := by
          apply writeAt_length
          rw [reorder_length, hlen_r]
          omega
        rw [ih base (writeAt buf (addr + base) (reorder w o ds)) hlen', hw]
        constructor
        · rintro ⟨s, hs, hv⟩
          exact ⟨s, List.mem_cons_of_mem _ hs, hv⟩
        · rintro ⟨s, hs, hv⟩
          rcases List.mem_cons.mp hs with h | h
          · rw [h] at hv
            exact absurd hv hov
          · exact ⟨s, h, hv⟩

/-! ## Claim theorems -/

/-- Claim C1: the checksum validator `ihex_check_record` reports a record
as valid (result 0) exactly when
`(length + addr_hi + addr_lo + type + Σdata + checksum) mod 256 = 0`,
and for a valid record, flipping any single bit of the checksum byte
makes validation fail (result 1). -/
theorem claim_C1 (r : IhexRecord) :
    (ihex_check_record r = 0 ↔
      (r.ihr_length + r.ihr_address / 256 + r.ihr_address % 256 +
        r.ihr_type.code + r.ihr_data.sum + r.ihr_checksum) % 256 = 0)
    ∧ (∀ k, k < 8 → r.ihr_checksum < 256 → ihex_check_record r = 0 →
        ihex_check_record
          ⟨r.ihr_length, r.ihr_type, r.ihr_address, r.ihr_data,
            r.ihr_checksum ^^^ 2 ^ k⟩ = 1) := by
  constructor
  · exact check_record_eq_zero_iff r
  · intro k hk hc hvalid
    rw [check_record_eq_zero_iff] at hvalid
    rw [check_record_eq_one_iff]
    unfold recordSum at hvalid ⊢
    simp only at hvalid ⊢
    have := flip_bit_breaks_sum
      (r.ihr_length + r.ihr_address / 256 + r.ihr_address % 256 +
        r.ihr_type.code + r.ihr_data.sum) r.ihr_checksum k hc hk
    omega

/-- Witness for C1 at a concrete valid record: flipping bit 0 of the
checksum byte makes `ihex_check_record` report failure. -/
theorem claim_C1_witness :
    ihex_check_record ⟨0, Rtype.data, 0, [], 0 ^^^ 2 ^ 0⟩ = 1 :=
  (claim_C1 ⟨0, Rtype.data, 0, [], 0⟩).2 0 (by decide) (by decide) (by decide)

/-- Claim C8: `ihex_fromhex8` combines two ASCII hex digits as
`high * 16 + low` (so `FF` decodes to 255) and fails with `ParseError`
exactly when either input byte is not one of `0-9A-Fa-f` (so `G0`
fails). -/
theorem claim_C8 (a b : Nat) :
    (∀ ha hb, hexDigit a = some ha → hexDigit b = some hb →
      ihex_fromhex8 a b = .ok (ha * 16 + hb))
    ∧ ((hexDigit a = none ∨ hexDigit b = none) →
        ihex_fromhex8 a b = .error .parseError)
    ∧ (hexDigit a = none ↔
        ¬((48 ≤ a ∧ a ≤ 57) ∨ (65 ≤ a ∧ a ≤ 70) ∨ (97 ≤ a ∧ a ≤ 102)))
    ∧ ihex_fromhex8 70 70 = .ok 255
    ∧ ihex_fromhex8 71 48 = .error .parseError := by
  refine ⟨?_, ?_, ?_, by decide, by decide⟩
  · intro ha hb h1 h2
    unfold ihex_fromhex8
    rw [h1, h2]
  · intro h
    unfold ihex_fromhex8
    rcases h with h | h
    · rw [h]
    · rw [h]; cases hexDigit a <;> rfl
  · unfold hexDigit
    repeat' split
    all_goals simp
    all_goals omega

/-- Witness for C8 at the concrete digits `F`, `F` (ASCII 70): the
decoder combines the nibbles as `15 * 16 + 15`. -/
theorem claim_C8_witness :
    ihex_fromhex8 70 70 = .ok (15 * 16 + 15) :=
  (claim_C8 70 70).1 15 15 (by decide) (by decide)

/-- Claim C4: `ihex_rs_get_size` sums the length fields of the
`Data`-typed records only; EOF, extended-address and start-address
records contribute 0, and record addresses never influence the result
(gaps and overlaps are not accounted for). -/
theorem claim_C4 (rs : IhexRecordset) :
    (ihex_rs_get_size rs =
      (rs.map fun r => if r.ihr_type = Rtype.data then r.ihr_length else 0).sum)
    ∧ (∀ r, (r.ihr_type = Rtype.eof ∨ r.ihr_type = Rtype.esa ∨
        r.ihr_type = Rtype.ssa ∨ r.ihr_type = Rtype.ela ∨
        r.ihr_type = Rtype.sla) →
        ihex_rs_get_size (r :: rs) = ihex_rs_get_size rs)
    ∧ (∀ f : IhexRecord → Nat,
        ihex_rs_get_size (rs.map fun r =>
          ⟨r.ihr_length, r.ihr_type, f r, r.ihr_data, r.ihr_checksum⟩) =
          ihex_rs_get_size rs) := by
  refine ⟨?_, ?_, ?_⟩
  · induction rs with
    | nil => simp [ihex_rs_get_size]
    | cons r rs ih => simp [ihex_rs_get_size, ih]
  · intro r h
    rcases h with h | h | h | h | h <;> simp [ihex_rs_get_size, h]
  · intro f
    induction rs with
    | nil => simp [ihex_rs_get_size]
    | cons r rs ih => simp [ihex_rs_get_size, ih]

/-- Witness for C4: a concrete extended-linear-address record contributes
nothing to the size of a concrete record set. -/
theorem claim_C4_witness :
    ihex_rs_get_size
      (⟨2, Rtype.ela, 0, [0, 1], 0⟩ :: [⟨3, Rtype.data, 48, [2, 51, 122], 30⟩]) =
      ihex_rs_get_size [⟨3, Rtype.data, 48, [2, 51, 122], 30⟩] :=
  (claim_C4 [⟨3, Rtype.data, 48, [2, 51, 122], 30⟩]).2.1
    ⟨2, Rtype.ela, 0, [0, 1], 0⟩ (by decide)

/-- Claim C6: the recordset assembler parses non-blank lines in input
order, appending one record per line, skips blank lines, and stops
successfully as soon as an EndOfFile-typed record is parsed; lines after
the EOF record never affect the result. -/
theorem claim_C6 (l : List Nat) (ls ls2 rest : List (List Nat))
    (r : IhexRecord) (recs : IhexRecordset) :
    (assembleRecords ls = .ok recs → assembleRecords (ls ++ ls2) = .ok recs)
    ∧ (isBlank l = false → parseRecordLine l = .ok r → r.ihr_type ≠ Rtype.eof →
        assembleRecords (l :: rest) =
          (assembleRecords rest).map fun rs => r :: rs)
    ∧ (isBlank l = false → parseRecordLine l = .ok r → r.ihr_type = Rtype.eof →
        assembleRecords (l :: rest) = .ok [r])
    ∧ (isBlank l = true → assembleRecords (l :: rest) = assembleRecords rest) := by
  refine ⟨assemble_append_ok ls ls2 recs, ?_, ?_, ?_⟩
  · intro hb hp he
    rw [assembleRecords, if_neg (by simp [hb])]
    simp only [hp, if_neg he]
    cases ha : assembleRecords rest <;> simp [ha, Except.map]
  · intro hb hp he
    rw [assembleRecords, if_neg (by simp [hb])]
    simp only [hp, if_pos he]
  · intro hb
    rw [assembleRecords, if_pos hb]

/-- Witness for C6: a concrete input whose first line is the EOF record
yields the same one-record set when a further data-record line trails
after the EOF line. -/
theorem claim_C6_witness :
    assembleRecords
      ([strBytes (":00000001FF")] ++ [strBytes (":0300300002337A1E")]) =
      .ok [⟨0, Rtype.eof, 0, [], 255⟩] :=
  (claim_C6 [] [strBytes (":00000001FF")] [strBytes (":0300300002337A1E")] []
    ⟨0, Rtype.data, 0, [], 0⟩ [⟨0, Rtype.eof, 0, [], 255⟩]).1 (by decide)

/-- Claim C7: if the assembler exhausts its input without ever parsing an
EndOfFile-typed record it fails with `NoEof`, and input containing zero
non-blank lines fails with `NoInput`. -/
theorem claim_C7 (ls : List (List Nat)) (s : List Nat) :
    ((∀ l ∈ ls, isBlank l = false →
        ∃ r, parseRecordLine l = .ok r ∧ r.ihr_type ≠ Rtype.eof) →
      assembleRecords ls = .error .noEof)
    ∧ ((splitLines s).all isBlank = true →
        ihex_rs_from_string s = .error .noInput)
    ∧ (ihex_rs_from_string s = .error .noInput →
        (splitLines s).all isBlank = true) := by
  refine ⟨assemble_no_eof ls, ?_, ?_⟩
  · intro hb
    unfold ihex_rs_from_string
    rw [if_pos hb]
  · intro h
    by_contra hb
    unfold ihex_rs_from_string at h
    rw [if_neg hb] at h
    exact assemble_ne_noInput _ h

/-- Witness for C7: a single data-record line (never an EOF record) makes
the assembler fail with `NoEof`, and empty input fails with `NoInput`. -/
theorem claim_C7_witness :
    assembleRecords [strBytes (":0300300002337A1E")] = .error .noEof ∧
      ihex_rs_from_string [] = .error .noInput := by
  constructor
  · refine (claim_C7 [strBytes (":0300300002337A1E")] []).1 ?_
    intro l hl hb
    rw [List.mem_singleton] at hl
    subst hl
    exact ⟨⟨3, Rtype.data, 48, [2, 51, 122], 30⟩, by decide, by decide⟩
  · exact (claim_C7 [] []).2.1 (by decide)

/-- Claim C9 (amended): every record set produced by a successful parse
is non-empty, every record except the last has type different from
EndOfFile, and the last record has type EndOfFile.  (The original claim
additionally required the last record's length to be 0, which the parse
does not guarantee; see the counterexample.) -/
theorem claim_C9 (s : List Nat) (recs : IhexRecordset)
    (h : ihex_rs_from_string s = .ok recs) :
    recs ≠ [] ∧ (∀ r ∈ recs.dropLast, r.ihr_type ≠ Rtype.eof) ∧
      ∃ r, recs.getLast? = some r ∧ r.ihr_type = Rtype.eof := by
  unfold ihex_rs_from_string at h
  by_cases hb : (splitLines s).all isBlank
  · rw [if_pos hb] at h
    exact absurd h (by simp)
  · rw [if_neg hb] at h
    exact assemble_ok_shape _ _ h

/-- Witness for C9 at a concrete successfully parsed input. -/
theorem claim_C9_witness :
    ([⟨0, Rtype.eof, 0, [], 255⟩] : IhexRecordset) ≠ [] ∧
      (∀ r ∈ ([⟨0, Rtype.eof, 0, [], 255⟩] : IhexRecordset).dropLast,
        r.ihr_type ≠ Rtype.eof) ∧
      ∃ r, ([⟨0, Rtype.eof, 0, [], 255⟩] : IhexRecordset).getLast? = some r ∧
        r.ihr_type = Rtype.eof :=
  claim_C9 (strBytes (":00000001FF")) [⟨0, Rtype.eof, 0, [], 255⟩] (by decide)

/-- Counterexample to C9 as stated: the line `:0100000100FE` carries type
EndOfFile, declared length 1 and a correct checksum, so it parses
successfully into a record set whose last record has type EndOfFile but
length 1, not 0. -/
theorem claim_C9_counterexample :
    ihex_rs_from_string (strBytes (":0100000100FE")) =
      .ok [⟨1, Rtype.eof, 0, [0], 254⟩] ∧
      ([⟨1, Rtype.eof, 0, [0], 254⟩] : IhexRecordset).getLast?.map
        IhexRecord.ihr_length = some 1 :=
  ⟨by decide, by decide⟩

/-- Claim C2: during materialization, an ELA record sets the active base
to `payload_u16 <<< 16` and an ESA record to `payload_u16 <<< 4` without
writing data, and a data record is written at absolute offset
`address + base` where `base` is the most recently set base (0
initially); in particular an ELA record with payload `0x0001` followed
by a data record at address `0x0010` is written at offset `0x10010`. -/
theorem claim_C2 (r : IhexRecord) (rest rs0 : IhexRecordset) (base : Nat)
    (buf buf2 : List Nat) (w : Nat) (o : ByteOrder) :
    (r.ihr_type = Rtype.ela →
      ihex_mem_copy_aux w o (r :: rest) base buf =
        ihex_mem_copy_aux w o rest (payload_u16 r <<< 16) buf)
    ∧ (r.ihr_type = Rtype.esa →
      ihex_mem_copy_aux w o (r :: rest) base buf =
        ihex_mem_copy_aux w o rest (payload_u16 r <<< 4) buf)
    ∧ (r.ihr_type = Rtype.data →
        r.ihr_address + base + r.ihr_length ≤ buf.length →
      ihex_mem_copy_aux w o (r :: rest) base buf =
        ihex_mem_copy_aux w o rest base
          (writeAt buf (r.ihr_address + base) (reorder w o r.ihr_data)))
    ∧ (ihex_mem_copy rs0 buf w o = ihex_mem_copy_aux w o rs0 0 buf)
    ∧ (0x10011 ≤ buf2.length →
      ihex_mem_copy
        [⟨2, Rtype.ela, 0, [0, 1], 246⟩, ⟨1, Rtype.data, 0x10, [171], 0⟩,
         ⟨0, Rtype.eof, 0, [], 255⟩] buf2 1 ByteOrder.big =
        (none, writeAt buf2 0x10010 [171])) := by
  obtain ⟨len, ty, addr, ds, ck⟩ := r
  refine ⟨?_, ?_, ?_, rfl, ?_⟩
  · intro ht
    subst ht
    rfl
  · intro ht
    subst ht
    rfl
  · intro ht hb
    subst ht
    simp only at hb
    simp only [ihex_mem_copy_aux]
    rw [if_neg (by omega)]
  · intro hlen2
    have hp : payload_u16 ⟨2, Rtype.ela, 0, [0, 1], 246⟩ <<< 16 = 65536 := by
      decide
    simp only [ihex_mem_copy, ihex_mem_copy_aux, hp]
    split
    · rename_i hov
      exfalso
      omega
    · norm_num [reorder]

/-- Witness for C2 at a concrete 0x10011-byte destination buffer. -/
theorem claim_C2_witness :
    ihex_mem_copy
      [⟨2, Rtype.ela, 0, [0, 1], 246⟩, ⟨1, Rtype.data, 0x10, [171], 0⟩,
       ⟨0, Rtype.eof, 0, [], 255⟩] (List.replicate 0x10011 0) 1
      ByteOrder.big =
      (none, writeAt (List.replicate 0x10011 0) 0x10010 [171]) :=
  (claim_C2 ⟨0, Rtype.data, 0, [], 0⟩ [] [] 0 [] (List.replicate 0x10011 0) 1
    ByteOrder.big).2.2.2.2 (by rw [List.length_replicate])

/-- Claim C3: `ihex_mem_copy` fails, with `AddressOutOfRange`, exactly
when some reached data record's absolute offset plus its length exceeds
the destination size; it aborts at the first violating record, keeping
the bytes written for earlier data records (no rollback), and returns
success exactly when no data record violates the bounds. -/
theorem claim_C3 (rs : IhexRecordset) (buf : List Nat) (w : Nat)
    (o : ByteOrder)
    (hlen : ∀ r ∈ rs, r.ihr_data.length = r.ihr_length) :
    ((ihex_mem_copy rs buf w o).1 = some .addressOutOfRange ↔
      ∃ s ∈ dataSpans rs 0, buf.length < s.1 + s.2)
    ∧ ((ihex_mem_copy rs buf w o).1 = none ↔
      ¬∃ s ∈ dataSpans rs 0, buf.length < s.1 + s.2)
    ∧ ihex_mem_copy
        [⟨2, Rtype.data, 0, [170, 187], 0⟩,
         ⟨8, Rtype.data, 0, [1, 2, 3, 4, 5, 6, 7, 8], 0⟩,
         ⟨0, Rtype.eof, 0, [], 255⟩]
        (List.replicate 4 0) 1 ByteOrder.big =
        (some .addressOutOfRange, [170, 187, 0, 0]) := by
  have h1 := mem_copy_aux_error_iff w o rs 0 buf hlen
  refine ⟨h1, ?_, by decide⟩
  constructor
  · intro hn hex
    have h2 := h1.mpr hex
    rw [show ihex_mem_copy rs buf w o = ihex_mem_copy_aux w o rs 0 buf
      from rfl] at hn
    rw [hn] at h2
    cases h2
  · intro hnex
    rcases mem_copy_aux_fst w o rs 0 buf with h | h
    · exact h
    · exact absurd (h1.mp h) hnex

/-- Witness for C3 at the spec's concrete scenario: a 4-byte destination,
one in-bounds 2-byte data record followed by an out-of-range 8-byte data
record; the first record's bytes remain written. -/
theorem claim_C3_witness :
    ihex_mem_copy
      [⟨2, Rtype.data, 0, [170, 187], 0⟩,
       ⟨8, Rtype.data, 0, [1, 2, 3, 4, 5, 6, 7, 8], 0⟩,
       ⟨0, Rtype.eof, 0, [], 255⟩]
      (List.replicate 4 0) 1 ByteOrder.big =
      (some .addressOutOfRange, [170, 187, 0, 0]) :=
  (claim_C3
    [⟨2, Rtype.data, 0, [170, 187], 0⟩,
     ⟨8, Rtype.data, 0, [1, 2, 3, 4, 5, 6, 7, 8], 0⟩,
     ⟨0, Rtype.eof, 0, [], 255⟩]
    (List.replicate 4 0) 1 ByteOrder.big (by decide)).2.2

/-- Claim C5: for data records written by `ihex_mem_copy`, when the word
width exceeds 1 and the byte order is little-endian each `w`-sized group
of payload bytes is reversed before being written; big-endian data and
width 1 are written in stream order unchanged.  The groups partition the
payload in order and reordering preserves the payload length. -/
theorem claim_C5 (w : Nat) (o : ByteOrder) (ds : List Nat) (r : IhexRecord)
    (rest : IhexRecordset) (base : Nat) (buf : List Nat) :
    (1 < w → reorder w ByteOrder.little ds =
      ((chunks w ds).map List.reverse).flatten)
    ∧ (reorder w ByteOrder.big ds = ds)
    ∧ (reorder 1 o ds = ds)
    ∧ ((chunks w ds).flatten = ds)
    ∧ (1 ≤ w → ∀ c ∈ chunks w ds, c.length ≤ w)
    ∧ ((reorder w o ds).length = ds.length)
    ∧ (r.ihr_type = Rtype.data →
        r.ihr_address + base + r.ihr_length ≤ buf.length →
        ihex_mem_copy_aux w o (r :: rest) base buf =
          ihex_mem_copy_aux w o rest base
            (writeAt buf (r.ihr_address + base) (reorder w o r.ihr_data))) := by
  refine ⟨?_, ?_, ?_, chunks_flatten w ds, fun hw => chunks_length_le w hw ds,
    reorder_length w o ds, ?_⟩
  · intro hw
    unfold reorder
    rw [if_neg (by omega)]
  · unfold reorder
    split <;> rfl
  · unfold reorder
    rw [if_pos (by omega)]
  · intro ht hb
    obtain ⟨len, ty, addr, ds2, ck⟩ := r
    subst ht
    simp only at hb
    simp only [ihex_mem_copy_aux]
    rw [if_neg (by omega)]

/-- Witness for C5 at width 2, little-endian, on a 5-byte payload. -/
theorem claim_C5_witness :
    reorder 2 ByteOrder.little [1, 2, 3, 4, 5] =
      ((chunks 2 [1, 2, 3, 4, 5]).map List.reverse).flatten :=
  (claim_C5 2 ByteOrder.little [1, 2, 3, 4, 5] ⟨0, Rtype.data, 0, [], 0⟩ []
    0 []).1 (by decide)

/-- Claim C10: the parse entry points return a record set (a non-NULL
pointer) exactly when parsing succeeds; on failure they return `none`
and set the process-wide error slot so that `ihex_errno` yields the
nonzero error code and `ihex_error` its message; before any error has
occurred, `ihex_errno` is 0 and `ihex_error` is NULL. -/
theorem claim_C10 (s : List Nat) (w : IhexWorld) :
    ((ihex_rs_from_string_g s w).1 ≠ none ↔
      ∃ rs, ihex_rs_from_string s = .ok rs)
    ∧ (∀ rs, ihex_rs_from_string s = .ok rs →
        (ihex_rs_from_string_g s w).1 = some rs ∧
          (ihex_rs_from_string_g s w).2 = w)
    ∧ (∀ e, ihex_rs_from_string s = .error e →
        (ihex_rs_from_string_g s w).1 = none ∧
          ihex_errno (ihex_rs_from_string_g s w).2 = errCode e ∧
          errCode e ≠ 0 ∧
          ihex_error (ihex_rs_from_string_g s w).2 = some (errMessage e))
    ∧ (ihex_rs_from_file_g s w = ihex_rs_from_string_g s w)
    ∧ ihex_errno initialWorld = 0 ∧ ihex_error initialWorld = none := by
  refine ⟨?_, ?_, ?_, rfl, rfl, rfl⟩
  · unfold ihex_rs_from_string_g
    cases hr : ihex_rs_from_string s with
    | ok rs => simp
    | error e => simp
  · intro rs hr
    have hg : ihex_rs_from_string_g s w = (some rs, w) := by
      unfold ihex_rs_from_string_g
      rw [hr]
    rw [hg]
    exact ⟨rfl, rfl⟩
  · intro e hr
    have hg : ihex_rs_from_string_g s w =
        (none, ⟨errCode e, some (errMessage e)⟩) := by
      unfold ihex_rs_from_string_g
      rw [hr]
    rw [hg]
    refine ⟨rfl, rfl, ?_, rfl⟩
    cases e <;> decide

/-- Witness for C10 at the one-byte input `x`, which fails with a parse
error: the entry point returns NULL and the error slot carries the
`IHEX_ERR_PARSE_ERROR` code and its message. -/
theorem claim_C10_witness :
    (ihex_rs_from_string_g (strBytes ("x")) initialWorld).1 = none ∧
      ihex_errno (ihex_rs_from_string_g (strBytes ("x")) initialWorld).2 =
        errCode .parseError ∧
      errCode .parseError ≠ 0 ∧
      ihex_error (ihex_rs_from_string_g (strBytes ("x")) initialWorld).2 =
        some (errMessage .parseError) :=
  (claim_C10 (strBytes ("x")) initialWorld).2.2.1 .parseError (by decide)

end Ihex
